import Mathlib

/-!
Shallow embedding of `src/server.js` (SentiTube): the chunk-and-aggregate
sentiment pipeline behind `POST /analyze`.

JavaScript numbers are modelled as exact rationals together with an explicit
NaN (`JsNum`); this tracks the one place the pipeline can produce NaN
(`0 + undefined` in the aggregation fold) while idealizing IEEE-754 doubles
as exact arithmetic.  `JSON.parse` and the external generative model are not
code of this repository and are abstracted as parameters: a parse function
`String → Except String JsVal` (the `.error` message is the thrown
`SyntaxError`'s message) and oracles keyed by the data that determines each
prompt.  Recursions that the source expresses as loops over shrinking slices
are written with an explicit fuel argument equal to the input length, so that
every definition is structurally recursive and evaluates inside the kernel.
-/

namespace SentiTube

/-- Model of a JavaScript number: an exact rational or NaN. -/
inductive JsNum where
  | val : ℚ → JsNum
  | nan : JsNum
deriving DecidableEq

/-- Model of a JavaScript/JSON value as produced by `JSON.parse`: numbers,
strings, booleans, null, arrays and objects (association lists in insertion
order). -/
inductive JsVal where
  | num : JsNum → JsVal
  | str : String → JsVal
  | boolean : Bool → JsVal
  | null : JsVal
  | arr : List JsVal → JsVal
  | obj : List (String × JsVal) → JsVal

/-- Property lookup on an object's field list: first matching key; `none`
models JavaScript `undefined` (absent field). -/
def lookupField : List (String × JsVal) → String → Option JsVal
  | [], _ => none
  | (k', v) :: rest, k => if k' = k then some v else lookupField rest k

/-- Property access `v.k`: objects look up their field list; any other value
yields `undefined` here (no other property is read by the pipeline). -/
def getField (v : JsVal) (k : String) : Option JsVal :=
  match v with
  | .obj fields => lookupField fields k
  | _ => none

/-- Property assignment on a field list: overwrite the first occurrence in
place (JavaScript keeps insertion order), append when the key is new. -/
def setAssoc : List (String × JsVal) → String → JsVal → List (String × JsVal)
  | [], k, x => [(k, x)]
  | (k', v) :: rest, k, x =>
    if k' = k then (k, x) :: rest else (k', v) :: setAssoc rest k x

/-- Property assignment `v.k = x`.  `server.js` is an ES module, hence strict
mode: assigning a property on a primitive or `null` throws a `TypeError`,
modelled as `.error`.  (Array targets, on which JS would permit a named
property, never occur in the pipeline and are folded into the error case.) -/
def setField (v : JsVal) (k : String) (x : JsVal) : Except String JsVal :=
  match v with
  | .obj fields => .ok (.obj (setAssoc fields k x))
  | _ => .error ("Cannot create property " ++ k)

/-- JavaScript `+` on numbers, NaN absorbing. -/
def jsAdd : JsNum → JsNum → JsNum
  | .val a, .val b => .val (a + b)
  | _, _ => .nan

/-- JavaScript `/` on numbers.  Division by zero (Infinity or NaN in JS) is
modelled as NaN; the pipeline only ever divides by the chunk count, which is
at least 1 for every request that reaches the aggregation step. -/
def jsDiv : JsNum → JsNum → JsNum
  | .val a, .val b => if b = 0 then .nan else .val (a / b)
  | _, _ => .nan

/-- `Math.round`: half rounds toward positive infinity; `Math.round(NaN)` is
NaN. -/
def jsRound : JsNum → JsNum
  | .val q => .val ((⌊q + 1/2⌋ : ℤ) : ℚ)
  | .nan => .nan

/-- Numeric coercion of `p.pos` as it enters `s + p.pos`: an absent field is
`undefined`, which is NaN under numeric addition (exact JS semantics); a
present number is itself.  Present non-number values, which full JS `+` would
treat by string concatenation or ToPrimitive, never arise in the modelled
pipeline and are mapped to NaN; no theorem depends on that corner. -/
def coerceNum : Option JsVal → JsNum
  | some (.num n) => n
  | _ => .nan

/-- JavaScript truthiness, as used by `p.praise || []`. -/
def truthy : JsVal → Bool
  | .num (.val q) => decide (q ≠ 0)
  | .num .nan => false
  | .str s => decide (s ≠ "")
  | .boolean b => b
  | .null => false
  | .arr _ => true
  | .obj _ => true

/-- Contribution of one chunk's list field to
`partials.flatMap(p => p.praise || [])`: a falsy or absent value coalesces to
the empty list, an array is spliced, and a truthy non-array stays as a single
element (which is what `flatMap` does with a non-array return value). -/
def flatMapPart (v : Option JsVal) : List JsVal :=
  match v with
  | none => []
  | some x =>
    if truthy x then
      match x with
      | .arr l => l
      | _ => [x]
    else []

/-- Line 171: `partials.reduce((s,p)=>s+p.pos,0)` for a field `k`. -/
def sumField (parts : List JsVal) (k : String) : JsNum :=
  parts.foldl (fun s p => jsAdd s (coerceNum (getField p k))) (.val 0)

/-- Lines 171 to 173: `partials.reduce((s,p)=>s+p.k,0)/partials.length`, one
of `posAvg`, `negAvg`, `neuAvg`. -/
def avgField (parts : List JsVal) (k : String) : JsNum :=
  jsDiv (sumField parts k) (.val parts.length)

/-- Lines 175 to 177: `partials.flatMap(p=>p.praise||[])` and friends. -/
def listField (parts : List JsVal) (k : String) : List JsVal :=
  parts.flatMap (fun p => flatMapPart (getField p k))

/-- Line 179: the `aggregate` object
`{posAvg, negAvg, neuAvg, praise, pain, themes}`. -/
def aggregateOf (parts : List JsVal) : JsVal :=
  .obj [("posAvg", .num (avgField parts "pos")),
        ("negAvg", .num (avgField parts "neg")),
        ("neuAvg", .num (avgField parts "neu")),
        ("praise", .arr (listField parts "praise")),
        ("pain", .arr (listField parts "pain")),
        ("themes", .arr (listField parts "themes"))]

/-- Fuel-indexed chunking.  One iteration of the loop
`for(let i=0;i<comments.length;i+=100) chunks.push(comments.slice(i,i+100))`
takes the next 100 elements and continues on the rest; the input length is
always sufficient fuel because every iteration consumes at least one element. -/
def chunkListF {α : Type} : Nat → List α → List (List α)
  | _, [] => []
  | 0, _ => []
  | fuel + 1, l => l.take 100 :: chunkListF fuel (l.drop 100)

/-- Lines 162 to 165: split `comments` into consecutive slices of 100. -/
def chunkList {α : Type} (l : List α) : List (List α) :=
  chunkListF l.length l

/-- The backtick character, U+0060. -/
def backtick : Char := Char.ofNat 96

/-- ASCII lowercasing: the case folding performed by the regex `i` flag on
the fence pattern, whose letters are all ASCII. -/
def lowerAscii (c : Char) : Char :=
  if 'A' ≤ c ∧ c ≤ 'Z' then Char.ofNat (c.toNat + 32) else c

/-- Case-insensitive character match (regex `i` flag). -/
def ciEq (a b : Char) : Bool := lowerAscii a == lowerAscii b

/-- Case-sensitive character match. -/
def csEq (a b : Char) : Bool := a == b

/-- Does the pattern match at the head of the text, character-wise under
`eqc`? -/
def isPrefixBy (eqc : Char → Char → Bool) : List Char → List Char → Bool
  | [], _ => true
  | _ :: _, [] => false
  | p :: ps, c :: cs => eqc p c && isPrefixBy eqc ps cs

/-- Fuel-indexed model of the global regex deletion `text.replace(/pat/g,"")`
for a literal pattern `p0 :: ps`: scan left to right, delete each
non-overlapping match and continue scanning after it (a JS global replace
never rescans the text it has produced).  Fuel equal to the text length is
always sufficient because every step consumes at least one character. -/
def replaceAllF (eqc : Char → Char → Bool) (p0 : Char) (ps : List Char) :
    Nat → List Char → List Char
  | _, [] => []
  | 0, s => s
  | fuel + 1, c :: cs =>
    if isPrefixBy eqc (p0 :: ps) (c :: cs) then
      replaceAllF eqc p0 ps fuel (cs.drop ps.length)
    else
      c :: replaceAllF eqc p0 ps fuel cs

/-- Global deletion of a literal nonempty pattern `p0 :: ps` from a text. -/
def replaceAll (eqc : Char → Char → Bool) (p0 : Char) (ps : List Char)
    (s : List Char) : List Char :=
  replaceAllF eqc p0 ps s.length s

/-- Whitespace recognised by `String.prototype.trim` (space, tab, line feed,
carriage return, vertical tab, form feed, no-break space, BOM). -/
def isJsWs (c : Char) : Bool :=
  c == ' ' || c == '\t' || c == '\n' || c == '\r' ||
  c == Char.ofNat 11 || c == Char.ofNat 12 ||
  c == Char.ofNat 160 || c == Char.ofNat 65279

/-- `String.prototype.trim`: drop whitespace from both ends. -/
def trimChars (s : List Char) : List Char :=
  ((s.dropWhile isJsWs).reverse.dropWhile isJsWs).reverse

/-- Tail of the first fence pattern, the regex matching the literal text of
three backticks followed by `json` (its first character is `backtick`). -/
def fenceJsonTail : List Char := [backtick, backtick, 'j', 's', 'o', 'n']

/-- Tail of the second fence pattern, the regex matching three backticks. -/
def fenceTail : List Char := [backtick, backtick]

/-- Opening fence line with a lowercase json tag, as a model response starts. -/
def fenceJsonOpen : List Char :=
  [backtick, backtick, backtick, 'j', 's', 'o', 'n', '\n']

/-- Opening fence line with an uppercase JSON tag. -/
def fenceJsonOpenU : List Char :=
  [backtick, backtick, backtick, 'J', 'S', 'O', 'N', '\n']

/-- Opening fence line without a language tag. -/
def fenceOpen : List Char := [backtick, backtick, backtick, '\n']

/-- Closing fence on its own line, as a model response ends. -/
def fenceClose : List Char := ['\n', backtick, backtick, backtick]

/-- Line 125: `raw.replace(/PAT1/gi,"").replace(/PAT2/g,"").trim()` in
`runChunk`, where PAT1 is the json-tagged fence and PAT2 the bare fence. -/
def cleanChunkResponse (raw : String) : String :=
  String.mk (trimChars (replaceAll csEq backtick fenceTail
    (replaceAll ciEq backtick fenceJsonTail raw.data)))

/-- Line 146: the identical cleaning expression in `runFinalPremium`. -/
def cleanPremiumResponse (raw : String) : String :=
  String.mk (trimChars (replaceAll csEq backtick fenceTail
    (replaceAll ciEq backtick fenceJsonTail raw.data)))

/-- Line 131: the zero-value fallback returned by `runChunk` when the chunk
response fails to parse. -/
def fallbackRecord : JsVal :=
  .obj [("pos", .num (.val 0)), ("neg", .num (.val 0)), ("neu", .num (.val 0)),
        ("praise", .arr []), ("pain", .arr []), ("themes", .arr [])]

/-- Lines 118 to 133, `runChunk`: the external model (abstracted as
`chunkOracle`, keyed by the chunk that determines the prompt) returns raw
text; fences are stripped and the result is parsed by `JSON.parse`
(abstracted as `parse`); a parse failure is swallowed and replaced by the
zero-value fallback. -/
def runChunk (parse : String → Except String JsVal)
    (chunkOracle : List String → String) (chunk : List String) : JsVal :=
  match parse (cleanChunkResponse (chunkOracle chunk)) with
  | .ok v => v
  | .error _ => fallbackRecord

/-- Lines 139 to 148, `runFinalPremium`: same cleaning, but a parse failure
propagates to the caller. -/
def runFinalPremium (parse : String → Except String JsVal)
    (finalOracle : JsVal → String) (aggregate : JsVal) : Except String JsVal :=
  parse (cleanPremiumResponse (finalOracle aggregate))

/-- Lines 185 to 187: overwrite the three percentage fields of the synthesis
result with the rounded locally computed averages. -/
def insertNumbers (f : JsVal) (posAvg negAvg neuAvg : JsNum) :
    Except String JsVal := do
  let f1 ← setField f "positivePercentage" (.num (jsRound posAvg))
  let f2 ← setField f1 "negativePercentage" (.num (jsRound negAvg))
  setField f2 "neutralPercentage" (.num (jsRound neuAvg))

/-- One call to the external model, identified by the data that determines
its prompt (the prompt text itself is opaque to every claim). -/
inductive ModelCall where
  | chunkCall : List String → ModelCall
  | finalCall : JsVal → ModelCall

/-- Outcome of one `POST /analyze` request: HTTP status, JSON body, and the
external model calls performed. -/
structure AnalyzeOutcome where
  status : Nat
  body : JsVal
  calls : List ModelCall

/-- Response body `{success:false, error:msg}`. -/
def errorBody (msg : String) : JsVal :=
  .obj [("success", .boolean false), ("error", .str msg)]

/-- Response body `{success:true, data:d}`. -/
def successBody (d : JsVal) : JsVal :=
  .obj [("success", .boolean true), ("data", d)]

/-- Lines 154 to 195: the `POST /analyze` handler.  `reqComments` is the
request body's `comments` field (`none` when absent;
`const {comments=[]} = req.body` defaults it to the empty list). -/
def analyze (parse : String → Except String JsVal)
    (chunkOracle : List String → String) (finalOracle : JsVal → String)
    (reqComments : Option (List String)) : AnalyzeOutcome :=
  let comments := reqComments.getD []
  if comments.length = 0 then
    ⟨400, errorBody "No comments", []⟩
  else
    let chunks := chunkList comments
    let parts := chunks.map (runChunk parse chunkOracle)
    let aggregate := aggregateOf parts
    let calls := chunks.map ModelCall.chunkCall ++ [ModelCall.finalCall aggregate]
    match runFinalPremium parse finalOracle aggregate with
    | .error msg => ⟨500, errorBody msg, calls⟩
    | .ok finalObj =>
      match insertNumbers finalObj (avgField parts "pos") (avgField parts "neg")
          (avgField parts "neu") with
      | .error msg => ⟨500, errorBody msg, calls⟩
      | .ok report => ⟨200, successBody report, calls⟩

/-! Helper lemmas about the chunker. -/

theorem chunkListF_nil {α : Type} (fuel : Nat) : chunkListF fuel ([] : List α) = [] := by
  cases fuel <;> rfl

theorem chunkListF_flatten {α : Type} :
    ∀ (fuel : Nat) (l : List α), l.length ≤ fuel → (chunkListF fuel l).flatten = l := by
  intro fuel
  induction fuel with
  | zero =>
    intro l hl
    have : l = [] := List.eq_nil_of_length_eq_zero (Nat.le_zero.mp hl)
    subst this
    simp [chunkListF_nil]
  | succ n ih =>
    intro l hl
    cases l with
    | nil => simp [chunkListF_nil]
    | cons c cs =>
      have hstep : chunkListF (n + 1) (c :: cs)
          = (c :: cs).take 100 :: chunkListF n ((c :: cs).drop 100) := rfl
      have hdrop : ((c :: cs).drop 100).length ≤ n := by
        rw [List.length_drop]
        simp only [List.length_cons] at hl ⊢
        omega
      rw [hstep, List.flatten_cons, ih _ hdrop, List.take_append_drop]

theorem chunkListF_length {α : Type} :
    ∀ (fuel : Nat) (l : List α), l.length ≤ fuel →
      (chunkListF fuel l).length = (l.length + 99) / 100 := by
  intro fuel
  induction fuel with
  | zero =>
    intro l hl
    have : l = [] := List.eq_nil_of_length_eq_zero (Nat.le_zero.mp hl)
    subst this
    simp [chunkListF_nil]
  | succ n ih =>
    intro l hl
    cases l with
    | nil => simp [chunkListF_nil]
    | cons c cs =>
      have hstep : chunkListF (n + 1) (c :: cs)
          = (c :: cs).take 100 :: chunkListF n ((c :: cs).drop 100) := rfl
      have hdrop : ((c :: cs).drop 100).length ≤ n := by
        rw [List.length_drop]
        simp only [List.length_cons] at hl ⊢
        omega
      rw [hstep, List.length_cons, ih _ hdrop, List.length_drop]
      rcases Nat.lt_or_ge (c :: cs).length 101 with hle | hgt
      · have h1 : (c :: cs).length - 100 = 0 := by omega
        have h2 : 1 ≤ (c :: cs).length := by simp
        rw [h1]
        have : ((c :: cs).length + 99) / 100 = 1 := by
          apply Nat.div_eq_of_lt_le <;> omega
        omega
      · have h3 : (c :: cs).length + 99 = ((c :: cs).length - 100 + 99) + 100 := by omega
        rw [h3, Nat.add_div_right _ (by norm_num)]

theorem chunkListF_mem {α : Type} :
    ∀ (fuel : Nat) (l : List α), l.length ≤ fuel →
      ∀ c ∈ chunkListF fuel l, 1 ≤ c.length ∧ c.length ≤ 100 := by
  intro fuel
  induction fuel with
  | zero =>
    intro l hl
    have : l = [] := List.eq_nil_of_length_eq_zero (Nat.le_zero.mp hl)
    subst this
    simp [chunkListF_nil]
  | succ n ih =>
    intro l hl
    cases l with
    | nil => simp [chunkListF_nil]
    | cons c cs =>
      have hstep : chunkListF (n + 1) (c :: cs)
          = (c :: cs).take 100 :: chunkListF n ((c :: cs).drop 100) := rfl
      have hdrop : ((c :: cs).drop 100).length ≤ n := by
        rw [List.length_drop]
        simp only [List.length_cons] at hl ⊢
        omega
      rw [hstep]
      intro d hd
      rcases List.mem_cons.mp hd with rfl | hmem
      · constructor
        · simp [List.length_take]
        · simp [List.length_take]
      · exact ih _ hdrop d hmem

/-- C1: for every input comment sequence of positive length L, the chunker
produces exactly ceil(L/100) chunks, every chunk has between 1 and 100
elements, and the concatenation of the chunks in order is the input. -/
theorem chunker_correct {α : Type} (l : List α) (h : l ≠ []) :
    (chunkList l).length = (l.length + 99) / 100 ∧
    (∀ c ∈ chunkList l, 1 ≤ c.length ∧ c.length ≤ 100) ∧
    (chunkList l).flatten = l := by
  refine ⟨chunkListF_length l.length l le_rfl, ?_, chunkListF_flatten l.length l le_rfl⟩
  intro c hc
  exact chunkListF_mem l.length l le_rfl c hc

/-- Witness for C1 at a concrete three-comment input. -/
theorem chunker_correct_witness :
    (chunkList ["a", "b", "c"]).length = ((["a", "b", "c"] : List String).length + 99) / 100 ∧
    (∀ c ∈ chunkList ["a", "b", "c"], 1 ≤ c.length ∧ c.length ≤ 100) ∧
    (chunkList ["a", "b", "c"]).flatten = ["a", "b", "c"] :=
  chunker_correct ["a", "b", "c"] (by decide)

/-- C10: for every non-empty comment list the number of chunks, and hence the
number of partial results the three averages divide by, is at least one, so
`partials.length` is a non-zero divisor. -/
theorem chunk_count_positive (parse : String → Except String JsVal)
    (chunkOracle : List String → String) (comments : List String)
    (h : comments ≠ []) :
    0 < ((chunkList comments).map (runChunk parse chunkOracle)).length ∧
    (((((chunkList comments).map (runChunk parse chunkOracle)).length : Nat) : ℚ)) ≠ 0 := by
  have hlen : ((chunkList comments).map (runChunk parse chunkOracle)).length
      = (comments.length + 99) / 100 := by
    rw [List.length_map]
    exact chunkListF_length comments.length comments le_rfl
  have hpos : 0 < (comments.length + 99) / 100 := by
    rw [Nat.lt_iff_add_one_le, Nat.one_le_div_iff (by norm_num)]
    have : comments.length ≠ 0 := by
      intro h0
      exact h (List.eq_nil_of_length_eq_zero h0)
    omega
  refine ⟨by rw [hlen]; exact hpos, ?_⟩
  rw [hlen]
  exact Nat.cast_ne_zero.mpr (by omega)

/-- Witness for C10 at a concrete one-comment input. -/
theorem chunk_count_positive_witness :
    0 < ((chunkList ["hi"]).map (runChunk (fun _ => .error "e") (fun _ => "r"))).length ∧
    (((((chunkList ["hi"]).map (runChunk (fun _ => .error "e") (fun _ => "r"))).length : Nat) : ℚ)) ≠ 0 :=
  chunk_count_positive (fun _ => .error "e") (fun _ => "r") ["hi"] (by decide)

/-! Helper lemmas about aggregation and the percentage overwrite. -/

theorem sumField_aux (k : String) :
    ∀ (parts : List JsVal) (qs : List ℚ) (a : ℚ),
      parts.map (fun p => getField p k) = qs.map (fun q => some (JsVal.num (JsNum.val q))) →
      parts.foldl (fun s p => jsAdd s (coerceNum (getField p k))) (JsNum.val a)
        = JsNum.val (a + qs.sum) := by
  intro parts
  induction parts with
  | nil =>
    intro qs a hmap
    cases qs with
    | nil => simp
    | cons q qs' => simp at hmap
  | cons p rest ih =>
    intro qs a hmap
    cases qs with
    | nil => simp at hmap
    | cons q qs' =>
      simp only [List.map_cons, List.cons.injEq] at hmap
      obtain ⟨hp, hrest⟩ := hmap
      simp only [List.foldl_cons, hp]
      have hstep : jsAdd (JsNum.val a) (coerceNum (some (JsVal.num (JsNum.val q))))
          = JsNum.val (a + q) := rfl
      rw [hstep, ih qs' (a + q) hrest]
      congr 1
      simp [List.sum_cons]
      ring

theorem sumField_eq (k : String) (parts : List JsVal) (qs : List ℚ)
    (hmap : parts.map (fun p => getField p k)
      = qs.map (fun q => some (JsVal.num (JsNum.val q)))) :
    sumField parts k = JsNum.val qs.sum := by
  have := sumField_aux k parts qs 0 hmap
  simpa [sumField] using this

theorem avgField_eq (k : String) (parts : List JsVal) (qs : List ℚ)
    (hne : parts ≠ [])
    (hmap : parts.map (fun p => getField p k)
      = qs.map (fun q => some (JsVal.num (JsNum.val q)))) :
    avgField parts k = JsNum.val (qs.sum / (qs.length : ℚ)) := by
  have hlen : parts.length = qs.length := by
    have := congrArg List.length hmap
    simpa using this
  have hne' : ((parts.length : Nat) : ℚ) ≠ 0 := by
    refine Nat.cast_ne_zero.mpr ?_
    intro h0
    exact hne (List.eq_nil_of_length_eq_zero h0)
  unfold avgField
  rw [sumField_eq k parts qs hmap]
  have hdiv : jsDiv (JsNum.val qs.sum) (JsNum.val ((parts.length : Nat) : ℚ))
      = JsNum.val (qs.sum / ((parts.length : Nat) : ℚ)) := by
    unfold jsDiv
    simp [hne']
  rw [hdiv, hlen]

theorem lookup_setAssoc_self (fs : List (String × JsVal)) (k : String) (x : JsVal) :
    lookupField (setAssoc fs k x) k = some x := by
  induction fs with
  | nil => simp [setAssoc, lookupField]
  | cons hd tl ih =>
    obtain ⟨k', v⟩ := hd
    by_cases h : k' = k
    · subst h
      simp [setAssoc, lookupField]
    · simp [setAssoc, lookupField, h, ih]

theorem lookup_setAssoc_ne (fs : List (String × JsVal)) (k k' : String) (x : JsVal)
    (h : k' ≠ k) :
    lookupField (setAssoc fs k x) k' = lookupField fs k' := by
  induction fs with
  | nil => simp [setAssoc, lookupField, Ne.symm h]
  | cons hd tl ih =>
    obtain ⟨k2, v⟩ := hd
    by_cases h2 : k2 = k
    · subst h2
      simp [setAssoc, lookupField, Ne.symm h]
    · simp [setAssoc, lookupField, h2, ih]

theorem insertNumbers_obj (fs : List (String × JsVal)) (a b c : JsNum) :
    insertNumbers (.obj fs) a b c = .ok (.obj (setAssoc (setAssoc (setAssoc fs
      "positivePercentage" (.num (jsRound a))) "negativePercentage" (.num (jsRound b)))
      "neutralPercentage" (.num (jsRound c)))) := rfl

/-- C3: for every non-empty list of partial results whose `pos`, `neg`, `neu`
fields are the numbers in `ps`, `ns`, `us`, the aggregate's three averages are
the simple unweighted arithmetic means (sum divided by the number of partial
results), independent of any chunk sizes. -/
theorem aggregate_unweighted_mean (parts : List JsVal) (ps ns us : List ℚ)
    (hne : parts ≠ [])
    (hp : parts.map (fun p => getField p "pos")
      = ps.map (fun q => some (JsVal.num (JsNum.val q))))
    (hn : parts.map (fun p => getField p "neg")
      = ns.map (fun q => some (JsVal.num (JsNum.val q))))
    (hu : parts.map (fun p => getField p "neu")
      = us.map (fun q => some (JsVal.num (JsNum.val q)))) :
    avgField parts "pos" = JsNum.val (ps.sum / (ps.length : ℚ)) ∧
    avgField parts "neg" = JsNum.val (ns.sum / (ns.length : ℚ)) ∧
    avgField parts "neu" = JsNum.val (us.sum / (us.length : ℚ)) :=
  ⟨avgField_eq "pos" parts ps hne hp, avgField_eq "neg" parts ns hne hn,
    avgField_eq "neu" parts us hne hu⟩

/-- Witness for C3: two partial results with pos 60 and 40 average to 50. -/
theorem aggregate_unweighted_mean_witness :
    avgField [JsVal.obj [("pos", .num (.val 60)), ("neg", .num (.val 10)), ("neu", .num (.val 30))],
              JsVal.obj [("pos", .num (.val 40)), ("neg", .num (.val 20)), ("neu", .num (.val 40))]] "pos"
      = JsNum.val (([60, 40] : List ℚ).sum / (([60, 40] : List ℚ).length : ℚ)) ∧
    avgField [JsVal.obj [("pos", .num (.val 60)), ("neg", .num (.val 10)), ("neu", .num (.val 30))],
              JsVal.obj [("pos", .num (.val 40)), ("neg", .num (.val 20)), ("neu", .num (.val 40))]] "neg"
      = JsNum.val (([10, 20] : List ℚ).sum / (([10, 20] : List ℚ).length : ℚ)) ∧
    avgField [JsVal.obj [("pos", .num (.val 60)), ("neg", .num (.val 10)), ("neu", .num (.val 30))],
              JsVal.obj [("pos", .num (.val 40)), ("neg", .num (.val 20)), ("neu", .num (.val 40))]] "neu"
      = JsNum.val (([30, 40] : List ℚ).sum / (([30, 40] : List ℚ).length : ℚ)) :=
  aggregate_unweighted_mean _ [60, 40] [10, 20] [30, 40]
    (List.cons_ne_nil _ _) rfl rfl rfl

/-- C2: whatever percentage fields the synthesis object carried, after the
overwrite the report's three percentage fields are exactly the rounded
unweighted means of the partial results' `pos`, `neg`, `neu`. -/
theorem report_percentages (fields : List (String × JsVal)) (parts : List JsVal)
    (ps ns us : List ℚ) (hne : parts ≠ [])
    (hp : parts.map (fun p => getField p "pos")
      = ps.map (fun q => some (JsVal.num (JsNum.val q))))
    (hn : parts.map (fun p => getField p "neg")
      = ns.map (fun q => some (JsVal.num (JsNum.val q))))
    (hu : parts.map (fun p => getField p "neu")
      = us.map (fun q => some (JsVal.num (JsNum.val q)))) :
    ∃ fields', insertNumbers (.obj fields) (avgField parts "pos") (avgField parts "neg")
        (avgField parts "neu") = .ok (.obj fields') ∧
      lookupField fields' "positivePercentage"
        = some (.num (jsRound (JsNum.val (ps.sum / (ps.length : ℚ))))) ∧
      lookupField fields' "negativePercentage"
        = some (.num (jsRound (JsNum.val (ns.sum / (ns.length : ℚ))))) ∧
      lookupField fields' "neutralPercentage"
        = some (.num (jsRound (JsNum.val (us.sum / (us.length : ℚ))))) := by
  refine ⟨_, insertNumbers_obj fields _ _ _, ?_, ?_, ?_⟩
  · rw [lookup_setAssoc_ne _ _ _ _ (by decide : ("positivePercentage" : String) ≠ "neutralPercentage"),
      lookup_setAssoc_ne _ _ _ _ (by decide : ("positivePercentage" : String) ≠ "negativePercentage"),
      lookup_setAssoc_self, avgField_eq "pos" parts ps hne hp]
  · rw [lookup_setAssoc_ne _ _ _ _ (by decide : ("negativePercentage" : String) ≠ "neutralPercentage"),
      lookup_setAssoc_self, avgField_eq "neg" parts ns hne hn]
  · rw [lookup_setAssoc_self, avgField_eq "neu" parts us hne hu]

/-- Witness for C2: the synthesis object's own percentage guesses (99, 99, 99)
are discarded in favour of the rounded chunk averages. -/
theorem report_percentages_witness :
    ∃ fields', insertNumbers
        (.obj [("positivePercentage", .num (.val 99)), ("negativePercentage", .num (.val 99)),
               ("neutralPercentage", .num (.val 99)), ("sentimentSummary_premium", .str "s")])
        (avgField [JsVal.obj [("pos", .num (.val 60)), ("neg", .num (.val 10)), ("neu", .num (.val 30))],
                   JsVal.obj [("pos", .num (.val 40)), ("neg", .num (.val 20)), ("neu", .num (.val 40))]] "pos")
        (avgField [JsVal.obj [("pos", .num (.val 60)), ("neg", .num (.val 10)), ("neu", .num (.val 30))],
                   JsVal.obj [("pos", .num (.val 40)), ("neg", .num (.val 20)), ("neu", .num (.val 40))]] "neg")
        (avgField [JsVal.obj [("pos", .num (.val 60)), ("neg", .num (.val 10)), ("neu", .num (.val 30))],
                   JsVal.obj [("pos", .num (.val 40)), ("neg", .num (.val 20)), ("neu", .num (.val 40))]] "neu")
        = .ok (.obj fields') ∧
      lookupField fields' "positivePercentage"
        = some (.num (jsRound (JsNum.val (([60, 40] : List ℚ).sum / (([60, 40] : List ℚ).length : ℚ))))) ∧
      lookupField fields' "negativePercentage"
        = some (.num (jsRound (JsNum.val (([10, 20] : List ℚ).sum / (([10, 20] : List ℚ).length : ℚ))))) ∧
      lookupField fields' "neutralPercentage"
        = some (.num (jsRound (JsNum.val (([30, 40] : List ℚ).sum / (([30, 40] : List ℚ).length : ℚ))))) :=
  report_percentages _ _ [60, 40] [10, 20] [30, 40]
    (List.cons_ne_nil _ _) rfl rfl rfl

/-- C9: the overwrite step modifies only the three percentage fields; every
other field of the synthesis object, `actionableInsight_premium` included, is
passed through to the caller exactly as parsed. -/
theorem synthesis_passthrough (fields : List (String × JsVal)) (pa na ua : JsNum)
    (k : String) (h1 : k ≠ "positivePercentage") (h2 : k ≠ "negativePercentage")
    (h3 : k ≠ "neutralPercentage") :
    ∃ fields', insertNumbers (.obj fields) pa na ua = .ok (.obj fields') ∧
      lookupField fields' k = lookupField fields k := by
  refine ⟨_, insertNumbers_obj fields pa na ua, ?_⟩
  rw [lookup_setAssoc_ne _ _ _ _ h3, lookup_setAssoc_ne _ _ _ _ h2,
    lookup_setAssoc_ne _ _ _ _ h1]

/-- Witness for C9: `actionableInsight_premium` survives the overwrite
untouched. -/
theorem synthesis_passthrough_witness :
    ∃ fields', insertNumbers
        (.obj [("actionableInsight_premium", .str "keep"), ("positivePercentage", .num (.val 7))])
        (.val 1) (.val 2) (.val 3) = .ok (.obj fields') ∧
      lookupField fields' "actionableInsight_premium"
        = lookupField [("actionableInsight_premium", .str "keep"),
            ("positivePercentage", .num (.val 7))] "actionableInsight_premium" :=
  synthesis_passthrough _ (.val 1) (.val 2) (.val 3) "actionableInsight_premium"
    (by decide) (by decide) (by decide)

/-- C7: a request whose `comments` field is absent or the empty list is
answered with status 400, body `{success:false, error:"No comments"}`, and no
external model call is performed. -/
theorem empty_comments_rejected (parse : String → Except String JsVal)
    (chunkOracle : List String → String) (finalOracle : JsVal → String)
    (req : Option (List String)) (h : req = none ∨ req = some []) :
    analyze parse chunkOracle finalOracle req = ⟨400, errorBody "No comments", []⟩ := by
  rcases h with rfl | rfl <;> rfl

/-- Witness for C7 with the `comments` field absent. -/
theorem empty_comments_rejected_witness :
    analyze (fun _ => .error "e") (fun _ => "r") (fun _ => "r") none
      = ⟨400, errorBody "No comments", []⟩ :=
  empty_comments_rejected (fun _ => .error "e") (fun _ => "r") (fun _ => "r") none (Or.inl rfl)

/-- C5: when the synthesis-stage response (after fence stripping) fails to
parse, the error propagates and the endpoint answers 500 with
`{success:false, error: the parse error message}`. -/
theorem synthesis_error_500 (parse : String → Except String JsVal)
    (co : List String → String) (fo : JsVal → String)
    (comments : List String) (msg : String)
    (hne : comments ≠ [])
    (herr : parse (cleanPremiumResponse (fo (aggregateOf
      ((chunkList comments).map (runChunk parse co))))) = .error msg) :
    (analyze parse co fo (some comments)).status = 500 ∧
    (analyze parse co fo (some comments)).body = errorBody msg := by
  have hlen : ¬ (comments.length = 0) := fun h0 => hne (List.eq_nil_of_length_eq_zero h0)
  have hout : analyze parse co fo (some comments)
      = ⟨500, errorBody msg, (chunkList comments).map ModelCall.chunkCall
          ++ [ModelCall.finalCall (aggregateOf ((chunkList comments).map (runChunk parse co)))]⟩ := by
    simp only [analyze, Option.getD_some]
    rw [if_neg hlen]
    simp only [runFinalPremium]
    rw [herr]
  rw [hout]
  exact ⟨rfl, rfl⟩

/-- Witness for C5: a synthesis response that the parser rejects yields a 500
carrying the parser's message. -/
theorem synthesis_error_500_witness :
    (analyze (fun s => if s = "GOOD" then .ok (.obj []) else .error "bad json")
      (fun _ => "GOOD") (fun _ => "BAD") (some ["x"])).status = 500 ∧
    (analyze (fun s => if s = "GOOD" then .ok (.obj []) else .error "bad json")
      (fun _ => "GOOD") (fun _ => "BAD") (some ["x"])).body = errorBody "bad json" :=
  synthesis_error_500 (fun s => if s = "GOOD" then .ok (.obj []) else .error "bad json")
    (fun _ => "GOOD") (fun _ => "BAD") ["x"] "bad json" (by decide) (by rfl)

/-- C4: a chunk whose cleaned response fails to parse yields exactly the
zero-value fallback record, and the failure is non-fatal: with the synthesis
stage succeeding (on an object), the request still completes with status 200. -/
theorem chunk_error_fallback (parse : String → Except String JsVal)
    (co : List String → String) (fo : JsVal → String)
    (comments chunk : List String) (msg : String) (fields : List (String × JsVal))
    (hne : comments ≠ [])
    (hmem : chunk ∈ chunkList comments)
    (hbad : parse (cleanChunkResponse (co chunk)) = .error msg)
    (hfin : parse (cleanPremiumResponse (fo (aggregateOf
      ((chunkList comments).map (runChunk parse co))))) = .ok (.obj fields)) :
    runChunk parse co chunk = fallbackRecord ∧
    (analyze parse co fo (some comments)).status = 200 := by
  have hlen : ¬ (comments.length = 0) := fun h0 => hne (List.eq_nil_of_length_eq_zero h0)
  constructor
  · unfold runChunk
    rw [hbad]
  · simp only [analyze, Option.getD_some]
    rw [if_neg hlen]
    simp only [runFinalPremium]
    rw [hfin]
    rfl

/-- Witness for C4: one unparseable chunk response ("NOT JSON") still ends in
a 200 when synthesis succeeds. -/
theorem chunk_error_fallback_witness :
    runChunk (fun s => if s = "SYNTH" then .ok (.obj []) else .error "oops")
      (fun _ => "NOT JSON") ["x"] = fallbackRecord ∧
    (analyze (fun s => if s = "SYNTH" then .ok (.obj []) else .error "oops")
      (fun _ => "NOT JSON") (fun _ => "SYNTH") (some ["x"])).status = 200 :=
  chunk_error_fallback (fun s => if s = "SYNTH" then .ok (.obj []) else .error "oops")
    (fun _ => "NOT JSON") (fun _ => "SYNTH") ["x"] ["x"] "oops" []
    (by decide) (by decide) (by rfl) (by rfl)

/-! Helper lemmas about NaN propagation in the aggregation fold. -/

theorem jsAdd_nan (x : JsNum) : jsAdd JsNum.nan x = JsNum.nan := by
  cases x <;> rfl

theorem jsDiv_nan (x : JsNum) : jsDiv JsNum.nan x = JsNum.nan := by
  cases x <;> rfl

theorem foldl_jsAdd_nan (k : String) (parts : List JsVal) :
    parts.foldl (fun s p => jsAdd s (coerceNum (getField p k))) JsNum.nan = JsNum.nan := by
  induction parts with
  | nil => rfl
  | cons p rest ih => simp [List.foldl_cons, jsAdd_nan, ih]

/-- C6 counterexample: a successfully parsed chunk object carrying `neg`,
`neu` and the three lists but no `pos` field does NOT have its missing `pos`
treated as zero: the resulting `posAvg` is NaN, while treating it as zero
would give 0. -/
theorem missing_pos_not_zero :
    avgField [JsVal.obj [("neg", .num (.val 0)), ("neu", .num (.val 0)),
      ("praise", .arr []), ("pain", .arr []), ("themes", .arr [])]] "pos" = JsNum.nan ∧
    JsNum.nan ≠ JsNum.val 0 := by
  constructor
  · rfl
  · decide

/-- C6 amended: the Aggregator's safe-default coalescing applies only to the
list fields — a missing `praise`/`pain`/`themes` list contributes nothing to
the concatenation — while a missing (undefined) `pos`/`neg`/`neu` field is
NOT treated as zero: it enters the sum as NaN and makes that average NaN. -/
theorem aggregator_coalescing_amended (p : JsVal) (rest : List JsVal) (k : String)
    (h : getField p k = none) :
    listField (p :: rest) k = listField rest k ∧
    avgField (p :: rest) k = JsNum.nan := by
  constructor
  · simp [listField, List.flatMap_cons, h, flatMapPart]
  · unfold avgField sumField
    simp only [List.foldl_cons, h]
    have hstep : jsAdd (JsNum.val 0) (coerceNum none) = JsNum.nan := rfl
    rw [hstep, foldl_jsAdd_nan k rest, jsDiv_nan]

/-- Witness for the amended C6: an empty parsed object contributes nothing to
the lists and poisons the numeric average to NaN. -/
theorem aggregator_coalescing_amended_witness :
    listField [JsVal.obj [], JsVal.obj [("pos", .num (.val 5))]] "pos"
      = listField [JsVal.obj [("pos", .num (.val 5))]] "pos" ∧
    avgField [JsVal.obj [], JsVal.obj [("pos", .num (.val 5))]] "pos" = JsNum.nan :=
  aggregator_coalescing_amended (JsVal.obj []) [JsVal.obj [("pos", .num (.val 5))]] "pos" rfl

/-! Helper lemmas about fence stripping and trimming. -/

theorem lowerAscii_ne_backtick {c : Char} (h : c ≠ backtick) : lowerAscii c ≠ backtick := by
  intro habs
  apply h
  unfold lowerAscii at habs
  split at habs
  · exfalso
    rename_i hr
    have h65 : 65 ≤ c.toNat := hr.1
    have h90 : c.toNat ≤ 90 := hr.2
    have hv : (c.toNat + 32).isValidChar := by
      constructor
      omega
    have hcast := congrArg Char.toNat habs
    rw [show (Char.ofNat (c.toNat + 32)).toNat = c.toNat + 32 by
      unfold Char.ofNat
      rw [dif_pos hv]
      rfl] at hcast
    rw [show backtick.toNat = 96 from rfl] at hcast
    omega
  · exact habs

theorem ciEq_backtick_false {c : Char} (h : c ≠ backtick) : ciEq backtick c = false := by
  unfold ciEq
  rw [show lowerAscii backtick = backtick from rfl]
  rw [beq_eq_false_iff_ne]
  exact fun habs => lowerAscii_ne_backtick h habs.symm

theorem csEq_backtick_false {c : Char} (h : c ≠ backtick) : csEq backtick c = false := by
  unfold csEq
  rw [beq_eq_false_iff_ne]
  exact fun habs => h habs.symm

theorem replaceAllF_pos_match (eqc : Char → Char → Bool) (p0 : Char) (ps : List Char)
    (c : Char) (cs : List Char) (fuel : Nat) (hf : 0 < fuel)
    (h : isPrefixBy eqc (p0 :: ps) (c :: cs) = true) :
    replaceAllF eqc p0 ps fuel (c :: cs)
      = replaceAllF eqc p0 ps (fuel - 1) (cs.drop ps.length) := by
  cases fuel with
  | zero => omega
  | succ f =>
    simp only [replaceAllF, Nat.succ_sub_one]
    rw [if_pos h]

theorem replaceAllF_pos_nomatch (eqc : Char → Char → Bool) (p0 : Char) (ps : List Char)
    (c : Char) (cs : List Char) (fuel : Nat) (hf : 0 < fuel)
    (h : isPrefixBy eqc (p0 :: ps) (c :: cs) = false) :
    replaceAllF eqc p0 ps fuel (c :: cs) = c :: replaceAllF eqc p0 ps (fuel - 1) cs := by
  cases fuel with
  | zero => omega
  | succ f =>
    simp only [replaceAllF, Nat.succ_sub_one]
    rw [if_neg (by simp [h])]

theorem replaceAllF_skip (eqc : Char → Char → Bool) (p0 : Char) (ps : List Char) :
    ∀ (l t : List Char) (fuel : Nat), (∀ c ∈ l, eqc p0 c = false) → l.length ≤ fuel →
      replaceAllF eqc p0 ps fuel (l ++ t)
        = l ++ replaceAllF eqc p0 ps (fuel - l.length) t := by
  intro l
  induction l with
  | nil =>
    intro t fuel _ _
    simp
  | cons c l' ih =>
    intro t fuel hl hf
    have hc : eqc p0 c = false := hl c (List.mem_cons_self c l')
    have hpre : isPrefixBy eqc (p0 :: ps) (c :: (l' ++ t)) = false := by
      simp [isPrefixBy, hc]
    have hf1 : 0 < fuel := by
      simp only [List.length_cons] at hf
      omega
    rw [List.cons_append, replaceAllF_pos_nomatch eqc p0 ps c (l' ++ t) fuel hf1 hpre]
    rw [ih t (fuel - 1) (fun d hd => hl d (List.mem_cons_of_mem c hd))
      (by simp only [List.length_cons] at hf; omega)]
    rw [show fuel - 1 - l'.length = fuel - (c :: l').length by
      simp only [List.length_cons]; omega]
    rfl

theorem trim_cons_ws {c : Char} (h : isJsWs c = true) (xs : List Char) :
    trimChars (c :: xs) = trimChars xs := by
  unfold trimChars
  rw [List.dropWhile_cons]
  simp [h]

theorem trim_append_ws {c : Char} (h : isJsWs c = true) (xs : List Char) :
    trimChars (xs ++ [c]) = trimChars xs := by
  unfold trimChars
  rw [List.dropWhile_append]
  by_cases he : (List.dropWhile isJsWs xs).isEmpty = true
  · have h2 : List.dropWhile isJsWs xs = [] := List.isEmpty_iff.mp he
    rw [if_pos he, h2]
    simp [List.dropWhile_cons, h]
  · rw [if_neg he]
    have h3 : (List.dropWhile isJsWs xs ++ [c]).reverse
        = c :: (List.dropWhile isJsWs xs).reverse := by simp
    rw [h3, List.dropWhile_cons]
    simp [h]

theorem mem_mid_no_backtick {s : List Char} (hs : ∀ c ∈ s, c ≠ backtick) :
    ∀ c ∈ '\n' :: s ++ ['\n'], c ≠ backtick := by
  intro c hc
  rcases List.mem_cons.mp hc with rfl | hc2
  · decide
  · rcases List.mem_append.mp hc2 with hc3 | hc4
    · exact hs c hc3
    · rcases List.mem_singleton.mp hc4 with rfl
      decide

theorem replaceAll_ci_json (s : List Char) (hs : ∀ c ∈ s, c ≠ backtick) :
    replaceAll ciEq backtick fenceJsonTail
      (backtick :: backtick :: backtick :: 'j' :: 's' :: 'o' :: 'n' :: '\n' ::
        (s ++ '\n' :: backtick :: backtick :: backtick :: []))
      = '\n' :: (s ++ '\n' :: backtick :: backtick :: backtick :: []) := by
  have e1 : replaceAll ciEq backtick fenceJsonTail
      (backtick :: backtick :: backtick :: 'j' :: 's' :: 'o' :: 'n' :: '\n' ::
        (s ++ '\n' :: backtick :: backtick :: backtick :: []))
      = replaceAllF ciEq backtick fenceJsonTail
          ((s ++ '\n' :: backtick :: backtick :: backtick :: []).length + 7)
          ('\n' :: (s ++ '\n' :: backtick :: backtick :: backtick :: [])) := rfl
  rw [e1]
  rw [show '\n' :: (s ++ '\n' :: backtick :: backtick :: backtick :: [])
      = ('\n' :: s ++ ['\n']) ++ [backtick, backtick, backtick] by simp]
  rw [replaceAllF_skip ciEq backtick fenceJsonTail ('\n' :: s ++ ['\n'])
    [backtick, backtick, backtick]
    ((s ++ '\n' :: backtick :: backtick :: backtick :: []).length + 7)
    (fun c hc => ciEq_backtick_false (mem_mid_no_backtick hs c hc))
    (by simp only [List.length_append, List.length_cons, List.length_nil]; omega)]
  rw [show (s ++ '\n' :: backtick :: backtick :: backtick :: []).length + 7
      - ('\n' :: s ++ ['\n']).length = 9 by
    simp only [List.length_append, List.length_cons, List.length_nil]; omega]
  rw [show replaceAllF ciEq backtick fenceJsonTail 9 [backtick, backtick, backtick]
      = [backtick, backtick, backtick] by decide]

theorem replaceAll_ci_jsonU (s : List Char) (hs : ∀ c ∈ s, c ≠ backtick) :
    replaceAll ciEq backtick fenceJsonTail
      (backtick :: backtick :: backtick :: 'J' :: 'S' :: 'O' :: 'N' :: '\n' ::
        (s ++ '\n' :: backtick :: backtick :: backtick :: []))
      = '\n' :: (s ++ '\n' :: backtick :: backtick :: backtick :: []) := by
  have e1 : replaceAll ciEq backtick fenceJsonTail
      (backtick :: backtick :: backtick :: 'J' :: 'S' :: 'O' :: 'N' :: '\n' ::
        (s ++ '\n' :: backtick :: backtick :: backtick :: []))
      = replaceAllF ciEq backtick fenceJsonTail
          ((s ++ '\n' :: backtick :: backtick :: backtick :: []).length + 7)
          ('\n' :: (s ++ '\n' :: backtick :: backtick :: backtick :: [])) := rfl
  rw [e1]
  rw [show '\n' :: (s ++ '\n' :: backtick :: backtick :: backtick :: [])
      = ('\n' :: s ++ ['\n']) ++ [backtick, backtick, backtick] by simp]
  rw [replaceAllF_skip ciEq backtick fenceJsonTail ('\n' :: s ++ ['\n'])
    [backtick, backtick, backtick]
    ((s ++ '\n' :: backtick :: backtick :: backtick :: []).length + 7)
    (fun c hc => ciEq_backtick_false (mem_mid_no_backtick hs c hc))
    (by simp only [List.length_append, List.length_cons, List.length_nil]; omega)]
  rw [show (s ++ '\n' :: backtick :: backtick :: backtick :: []).length + 7
      - ('\n' :: s ++ ['\n']).length = 9 by
    simp only [List.length_append, List.length_cons, List.length_nil]; omega]
  rw [show replaceAllF ciEq backtick fenceJsonTail 9 [backtick, backtick, backtick]
      = [backtick, backtick, backtick] by decide]

theorem replaceAll_ci_plain (s : List Char) (hs : ∀ c ∈ s, c ≠ backtick) :
    replaceAll ciEq backtick fenceJsonTail
      (backtick :: backtick :: backtick :: '\n' ::
        (s ++ '\n' :: backtick :: backtick :: backtick :: []))
      = backtick :: backtick :: backtick :: '\n' ::
          (s ++ '\n' :: backtick :: backtick :: backtick :: []) := by
  have e1 : replaceAll ciEq backtick fenceJsonTail
      (backtick :: backtick :: backtick :: '\n' ::
        (s ++ '\n' :: backtick :: backtick :: backtick :: []))
      = backtick :: backtick :: backtick :: replaceAllF ciEq backtick fenceJsonTail
          ((s ++ '\n' :: backtick :: backtick :: backtick :: []).length + 1)
          ('\n' :: (s ++ '\n' :: backtick :: backtick :: backtick :: [])) := rfl
  rw [e1]
  rw [show '\n' :: (s ++ '\n' :: backtick :: backtick :: backtick :: [])
      = ('\n' :: s ++ ['\n']) ++ [backtick, backtick, backtick] by simp]
  rw [replaceAllF_skip ciEq backtick fenceJsonTail ('\n' :: s ++ ['\n'])
    [backtick, backtick, backtick]
    ((s ++ '\n' :: backtick :: backtick :: backtick :: []).length + 1)
    (fun c hc => ciEq_backtick_false (mem_mid_no_backtick hs c hc))
    (by simp only [List.length_append, List.length_cons, List.length_nil]; omega)]
  rw [show (s ++ '\n' :: backtick :: backtick :: backtick :: []).length + 1
      - ('\n' :: s ++ ['\n']).length = 3 by
    simp only [List.length_append, List.length_cons, List.length_nil]; omega]
  rw [show replaceAllF ciEq backtick fenceJsonTail 3 [backtick, backtick, backtick]
      = [backtick, backtick, backtick] by decide]

theorem replaceAll_cs_after_json (s : List Char) (hs : ∀ c ∈ s, c ≠ backtick) :
    replaceAll csEq backtick fenceTail
      ('\n' :: (s ++ '\n' :: backtick :: backtick :: backtick :: []))
      = '\n' :: (s ++ ['\n']) := by
  unfold replaceAll
  rw [show '\n' :: (s ++ '\n' :: backtick :: backtick :: backtick :: [])
      = ('\n' :: s ++ ['\n']) ++ [backtick, backtick, backtick] by simp]
  rw [replaceAllF_skip csEq backtick fenceTail ('\n' :: s ++ ['\n'])
    [backtick, backtick, backtick]
    ((('\n' :: s ++ ['\n']) ++ [backtick, backtick, backtick]).length)
    (fun c hc => csEq_backtick_false (mem_mid_no_backtick hs c hc))
    (by simp only [List.length_append, List.length_cons, List.length_nil]; omega)]
  rw [show (((('\n' :: s ++ ['\n']) ++ [backtick, backtick, backtick])).length)
      - ('\n' :: s ++ ['\n']).length = 3 by
    simp only [List.length_append, List.length_cons, List.length_nil]; omega]
  rw [show replaceAllF csEq backtick fenceTail 3 [backtick, backtick, backtick] = [] by decide]
  simp

theorem replaceAll_cs_plain (s : List Char) (hs : ∀ c ∈ s, c ≠ backtick) :
    replaceAll csEq backtick fenceTail
      (backtick :: backtick :: backtick :: '\n' ::
        (s ++ '\n' :: backtick :: backtick :: backtick :: []))
      = '\n' :: (s ++ ['\n']) := by
  have e1 : replaceAll csEq backtick fenceTail
      (backtick :: backtick :: backtick :: '\n' ::
        (s ++ '\n' :: backtick :: backtick :: backtick :: []))
      = replaceAllF csEq backtick fenceTail
          ((s ++ '\n' :: backtick :: backtick :: backtick :: []).length + 3)
          ('\n' :: (s ++ '\n' :: backtick :: backtick :: backtick :: [])) := rfl
  rw [e1]
  rw [show '\n' :: (s ++ '\n' :: backtick :: backtick :: backtick :: [])
      = ('\n' :: s ++ ['\n']) ++ [backtick, backtick, backtick] by simp]
  rw [replaceAllF_skip csEq backtick fenceTail ('\n' :: s ++ ['\n'])
    [backtick, backtick, backtick]
    ((s ++ '\n' :: backtick :: backtick :: backtick :: []).length + 3)
    (fun c hc => csEq_backtick_false (mem_mid_no_backtick hs c hc))
    (by simp only [List.length_append, List.length_cons, List.length_nil]; omega)]
  rw [show (s ++ '\n' :: backtick :: backtick :: backtick :: []).length + 3
      - ('\n' :: s ++ ['\n']).length = 5 by
    simp only [List.length_append, List.length_cons, List.length_nil]; omega]
  rw [show replaceAllF csEq backtick fenceTail 5 [backtick, backtick, backtick] = [] by decide]
  simp

theorem strip_core_json (s : List Char) (hs : ∀ c ∈ s, c ≠ backtick) :
    trimChars (replaceAll csEq backtick fenceTail (replaceAll ciEq backtick fenceJsonTail
      (backtick :: backtick :: backtick :: 'j' :: 's' :: 'o' :: 'n' :: '\n' ::
        (s ++ '\n' :: backtick :: backtick :: backtick :: [])))) = trimChars s := by
  rw [replaceAll_ci_json s hs, replaceAll_cs_after_json s hs,
    trim_cons_ws (show isJsWs '\n' = true by decide) (s ++ ['\n']),
    trim_append_ws (show isJsWs '\n' = true by decide) s]

theorem strip_core_jsonU (s : List Char) (hs : ∀ c ∈ s, c ≠ backtick) :
    trimChars (replaceAll csEq backtick fenceTail (replaceAll ciEq backtick fenceJsonTail
      (backtick :: backtick :: backtick :: 'J' :: 'S' :: 'O' :: 'N' :: '\n' ::
        (s ++ '\n' :: backtick :: backtick :: backtick :: [])))) = trimChars s := by
  rw [replaceAll_ci_jsonU s hs, replaceAll_cs_after_json s hs,
    trim_cons_ws (show isJsWs '\n' = true by decide) (s ++ ['\n']),
    trim_append_ws (show isJsWs '\n' = true by decide) s]

theorem strip_core_plain (s : List Char) (hs : ∀ c ∈ s, c ≠ backtick) :
    trimChars (replaceAll csEq backtick fenceTail (replaceAll ciEq backtick fenceJsonTail
      (backtick :: backtick :: backtick :: '\n' ::
        (s ++ '\n' :: backtick :: backtick :: backtick :: [])))) = trimChars s := by
  rw [replaceAll_ci_plain s hs, replaceAll_cs_plain s hs,
    trim_cons_ws (show isJsWs '\n' = true by decide) (s ++ ['\n']),
    trim_append_ws (show isJsWs '\n' = true by decide) s]

/-- C8: for every backtick-free payload, a model response wrapped in markdown
code fences — with a `json` tag in lower or upper case, or with no tag — has
the fence markers removed and the surrounding whitespace trimmed before the
text reaches the JSON parser, identically in the chunk-analysis stage and in
the premium-synthesis stage. -/
theorem fences_stripped (s : String) (hs : ∀ c ∈ s.data, c ≠ backtick) :
    cleanChunkResponse (String.mk (fenceJsonOpen ++ s.data ++ fenceClose))
      = String.mk (trimChars s.data) ∧
    cleanChunkResponse (String.mk (fenceJsonOpenU ++ s.data ++ fenceClose))
      = String.mk (trimChars s.data) ∧
    cleanChunkResponse (String.mk (fenceOpen ++ s.data ++ fenceClose))
      = String.mk (trimChars s.data) ∧
    cleanPremiumResponse (String.mk (fenceJsonOpen ++ s.data ++ fenceClose))
      = String.mk (trimChars s.data) ∧
    cleanPremiumResponse (String.mk (fenceJsonOpenU ++ s.data ++ fenceClose))
      = String.mk (trimChars s.data) ∧
    cleanPremiumResponse (String.mk (fenceOpen ++ s.data ++ fenceClose))
      = String.mk (trimChars s.data) := by
  have hform1 : fenceJsonOpen ++ s.data ++ fenceClose
      = backtick :: backtick :: backtick :: 'j' :: 's' :: 'o' :: 'n' :: '\n' ::
          (s.data ++ '\n' :: backtick :: backtick :: backtick :: []) := by
    simp [fenceJsonOpen, fenceClose]
  have hform2 : fenceJsonOpenU ++ s.data ++ fenceClose
      = backtick :: backtick :: backtick :: 'J' :: 'S' :: 'O' :: 'N' :: '\n' ::
          (s.data ++ '\n' :: backtick :: backtick :: backtick :: []) := by
    simp [fenceJsonOpenU, fenceClose]
  have hform3 : fenceOpen ++ s.data ++ fenceClose
      = backtick :: backtick :: backtick :: '\n' ::
          (s.data ++ '\n' :: backtick :: backtick :: backtick :: []) := by
    simp [fenceOpen, fenceClose]
  refine ⟨?_, ?_, ?_, ?_, ?_, ?_⟩
  · unfold cleanChunkResponse
    apply congrArg String.mk
    rw [show (String.mk (fenceJsonOpen ++ s.data ++ fenceClose)).data
        = fenceJsonOpen ++ s.data ++ fenceClose from rfl, hform1]
    exact strip_core_json s.data hs
  · unfold cleanChunkResponse
    apply congrArg String.mk
    rw [show (String.mk (fenceJsonOpenU ++ s.data ++ fenceClose)).data
        = fenceJsonOpenU ++ s.data ++ fenceClose from rfl, hform2]
    exact strip_core_jsonU s.data hs
  · unfold cleanChunkResponse
    apply congrArg String.mk
    rw [show (String.mk (fenceOpen ++ s.data ++ fenceClose)).data
        = fenceOpen ++ s.data ++ fenceClose from rfl, hform3]
    exact strip_core_plain s.data hs
  · unfold cleanPremiumResponse
    apply congrArg String.mk
    rw [show (String.mk (fenceJsonOpen ++ s.data ++ fenceClose)).data
        = fenceJsonOpen ++ s.data ++ fenceClose from rfl, hform1]
    exact strip_core_json s.data hs
  · unfold cleanPremiumResponse
    apply congrArg String.mk
    rw [show (String.mk (fenceJsonOpenU ++ s.data ++ fenceClose)).data
        = fenceJsonOpenU ++ s.data ++ fenceClose from rfl, hform2]
    exact strip_core_jsonU s.data hs
  · unfold cleanPremiumResponse
    apply congrArg String.mk
    rw [show (String.mk (fenceOpen ++ s.data ++ fenceClose)).data
        = fenceOpen ++ s.data ++ fenceClose from rfl, hform3]
    exact strip_core_plain s.data hs

/-- Witness for C8 at the concrete backtick-free payload "ok". -/
theorem fences_stripped_witness :
    cleanChunkResponse (String.mk (fenceJsonOpen ++ "ok".data ++ fenceClose))
      = String.mk (trimChars "ok".data) ∧
    cleanChunkResponse (String.mk (fenceJsonOpenU ++ "ok".data ++ fenceClose))
      = String.mk (trimChars "ok".data) ∧
    cleanChunkResponse (String.mk (fenceOpen ++ "ok".data ++ fenceClose))
      = String.mk (trimChars "ok".data) ∧
    cleanPremiumResponse (String.mk (fenceJsonOpen ++ "ok".data ++ fenceClose))
      = String.mk (trimChars "ok".data) ∧
    cleanPremiumResponse (String.mk (fenceJsonOpenU ++ "ok".data ++ fenceClose))
      = String.mk (trimChars "ok".data) ∧
    cleanPremiumResponse (String.mk (fenceOpen ++ "ok".data ++ fenceClose))
      = String.mk (trimChars "ok".data) :=
  fences_stripped "ok" (by decide)

end SentiTube
